import Mathlib

/-
Verification development for the ADBE-Analysis data pipeline
(`src/app/data.py`): source reading with format sniffing
(`read_tables_from_file`), chronological tercile splitting
(`split_into_terciles`), Bollinger Bands (`compute_bbands`) and MACD
(`compute_macd`).

Machine floats are modelled as exact rationals (and reals where a square
root appears); pandas NaN/NaT null markers are modelled as `Option`;
DataFrames are modelled as a column-name list plus a row list.
-/

namespace ADBE

/-! ### Generic list helpers -/

theorem getD_map_range {α : Type} (f : ℕ → α) (d : α) {m i : ℕ} (h : i < m) :
    (((List.range m).map f).getD i d) = f i := by
  have hlen : i < ((List.range m).map f).length := by simpa using h
  rw [List.getD_eq_getElem _ _ hlen, List.getElem_map, List.getElem_range]

/-! ### Null-date ordering used for sorting and sortedness statements.

`none` models pandas' NaT, which `sort_values` places last
(`na_position="last"`), i.e. `none` is maximal. -/

def dleB2 : Option Int → Option Int → Bool
  | none, none => true
  | none, some _ => false
  | some _, none => true
  | some a, some b => a ≤ b

theorem dleB2_total (a b : Option Int) : dleB2 a b = true ∨ dleB2 b a = true := by
  cases a <;> cases b <;> simp [dleB2] <;> omega

theorem dleB2_trans {a b c : Option Int} (h1 : dleB2 a b = true) (h2 : dleB2 b c = true) :
    dleB2 a c = true := by
  cases a <;> cases b <;> cases c <;> simp [dleB2] at * <;> omega

/-! ### Source Reader (`read_tables_from_file`, data.py lines 17-63)

A parsed table (`pd.DataFrame` as produced by `read_csv`/`read_html`) is a
list of column names plus rows; each row keeps its raw cells (column name,
cell text) and a typed `date` slot modelling the `Date` column after
`pd.to_datetime(..., errors="coerce")` (a calendar date as an integer,
`none` = NaT).  The pandas parsers themselves (`read_csv`, `read_html`,
`to_datetime`) are external collaborators and are passed in as functions. -/

structure ARow where
  cells : List (String × String)
  date : Option Int
deriving DecidableEq

structure ATable where
  cols : List String
  rows : List ARow
deriving DecidableEq

/-- Substring containment on character lists (models Python's `in`). -/
def containsSub (pat : List Char) : List Char → Bool
  | [] => pat.isEmpty
  | c :: cs => pat.isPrefixOf (c :: cs) || containsSub pat cs

/-- Models `"<table" in sample.lower()` where `sample = f.read(8192)`
(data.py lines 31-35). -/
def sniffHTML (content : String) : Bool :=
  containsSub ("<table".toList) ((content.toList.take 8192).map Char.toLower)

/-- Drop the `OpenInt` column if present (data.py lines 45-46). -/
def dropOpenInt (t : ATable) : ATable :=
  { cols := t.cols.filter (fun c => c ≠ "OpenInt"),
    rows := t.rows.map (fun r => { r with cells := r.cells.filter (fun kv => kv.1 ≠ "OpenInt") }) }

/-- Models `df["Date"] = pd.to_datetime(df["Date"], errors="coerce")`
(data.py line 50); the date parser `dp` is the external collaborator,
returning `none` on unparsable input. -/
def parseDates (dp : String → Option Int) (t : ATable) : ATable :=
  { t with rows := t.rows.map (fun r => { r with date := dp ((r.cells.lookup "Date").getD "") }) }

/-- Insert one row into a date-sorted row list (`none` last). -/
def dinsert (r : ARow) : List ARow → List ARow
  | [] => [r]
  | x :: xs => if dleB2 r.date x.date then r :: x :: xs else x :: dinsert r xs

/-- Models `df.sort_values("Date")` (data.py line 51), modelled as an insertion
sort on the parsed date key with NaT maximal; pandas' tie order among
equal dates is not relied upon by any claim. -/
def dsort : List ARow → List ARow
  | [] => []
  | x :: xs => dinsert x (dsort xs)

/-- CSV-path normalization (data.py lines 44-51): drop `OpenInt`, then if a
`Date` column is present, parse it and sort ascending by it. -/
def normalize (dp : String → Option Int) (t : ATable) : ATable :=
  let t1 := dropOpenInt t
  if "Date" ∈ t1.cols then
    let t2 := parseDates dp t1
    { t2 with rows := dsort t2.rows }
  else t1

inductive ReadErr (ε η : Type) where
  | notFound
  | csvFail (e : ε)
  | htmlFail (e : η)
deriving DecidableEq

/-- Embedding of `read_tables_from_file` (data.py lines 17-63).  `file` is the source
content (`none` = missing file); `csvParse` and `htmlParse` are the
external pandas parsers; `dp` the external date parser. -/
def read_tables_from_file {ε η : Type} (file : Option String)
    (csvParse : String → Except ε ATable)
    (htmlParse : String → Except η (List ATable))
    (dp : String → Option Int) : Except (ReadErr ε η) (List ATable) :=
  match file with
  | none => .error .notFound
  | some content =>
    if sniffHTML content then
      match htmlParse content with
      | .ok ts => .ok ts
      | .error e => .error (.htmlFail e)
    else
      match csvParse content with
      | .ok t => .ok [normalize dp t]
      | .error csv_err =>
        match htmlParse content with
        | .ok ts => .ok ts
        | .error _ => .error (.csvFail csv_err)

/-! ### Sortedness lemmas for `dsort` -/

theorem mem_dinsert (a r : ARow) (l : List ARow) :
    a ∈ dinsert r l ↔ a = r ∨ a ∈ l := by
  induction l with
  | nil => simp [dinsert]
  | cons x xs ih =>
    by_cases h : dleB2 r.date x.date
    · simp [dinsert, h]
    · simp [dinsert, h, ih]
      tauto

theorem pairwise_dinsert (r : ARow) (l : List ARow)
    (hl : l.Pairwise (fun a b => dleB2 a.date b.date = true)) :
    (dinsert r l).Pairwise (fun a b => dleB2 a.date b.date = true) := by
  induction l with
  | nil => simp [dinsert]
  | cons x xs ih =>
    rcases List.pairwise_cons.mp hl with ⟨hx, hxs⟩
    by_cases h : dleB2 r.date x.date
    · rw [dinsert, if_pos h]
      refine List.pairwise_cons.mpr ⟨?_, hl⟩
      intro b hb
      rcases List.mem_cons.mp hb with hb | hb
      · rw [hb]
        exact h
      · exact dleB2_trans h (hx b hb)
    · rw [dinsert, if_neg h]
      refine List.pairwise_cons.mpr ⟨?_, ih hxs⟩
      intro b hb
      rcases (mem_dinsert b r xs).mp hb with hb | hb
      · rw [hb]
        rcases dleB2_total r.date x.date with ht | ht
        · exact absurd ht h
        · exact ht
      · exact hx b hb

theorem mem_dsort (a : ARow) (l : List ARow) : a ∈ dsort l ↔ a ∈ l := by
  induction l with
  | nil => simp [dsort]
  | cons x xs ih => simp [dsort, mem_dinsert, ih]

theorem pairwise_dsort (l : List ARow) :
    (dsort l).Pairwise (fun a b => dleB2 a.date b.date = true) := by
  induction l with
  | nil => simp [dsort]
  | cons x xs ih => exact pairwise_dinsert x (dsort xs) ih

/-! ### Analysis-side data model

For the Partitioner and Indicator Engine (which only inspect the `Date`
and `Close` columns plus row identity) a DataFrame is a column-name list,
a flag modelling `pd.api.types.is_datetime64_any_dtype(df["Date"])`, and
rows carrying the typed date (`none` = NaT), the close price, and an
opaque tag standing for the remaining cells of the row. -/

structure Row where
  date : Option Int
  close : ℚ
  tag : ℕ
deriving DecidableEq

structure DF where
  cols : List String
  dateTyped : Bool
  rows : List Row
deriving DecidableEq

def closes (df : DF) : List ℚ := df.rows.map (fun r => r.close)

/-- Models `df["Date"].dropna()`: the non-null dates in row order. -/
def nnDates (df : DF) : List Int := df.rows.filterMap (fun r => r.date)

/-- Insertion into a sorted integer list. -/
def iinsert (d : Int) : List Int → List Int
  | [] => [d]
  | x :: xs => if d ≤ x then d :: x :: xs else x :: iinsert d xs

/-- Models `Series.sort_values()` on the non-null dates, modelled as an insertion
sort (integers compare totally, so any comparison sort yields this list). -/
def isort : List Int → List Int
  | [] => []
  | x :: xs => iinsert x (isort xs)

/-- Models `df["Date"] <= t` elementwise; NaT compares `False` (data.py line 171). -/
def dleB : Option Int → Int → Bool
  | some d, t => d ≤ t
  | none, _ => false

/-- Models `df["Date"] > t` elementwise; NaT compares `False` (data.py lines 172-173). -/
def dgtB : Option Int → Int → Bool
  | some d, t => t < d
  | none, _ => false

structure Terciles where
  early : DF
  mid : DF
  recent : DF
deriving DecidableEq

/-- The positional fallback split (data.py lines 161-166 and 176-182):
`df.iloc[:n//3]`, `df.iloc[n//3:(2*n)//3]`, `df.iloc[(2*n)//3:]`. -/
def posSplit (df : DF) : Terciles :=
  let n := df.rows.length
  ⟨{ df with rows := df.rows.take (n / 3) },
   { df with rows := (df.rows.drop (n / 3)).take ((2 * n) / 3 - n / 3) },
   { df with rows := df.rows.drop ((2 * n) / 3) }⟩

/-- Embedding of `split_into_terciles` (data.py lines 147-182). -/
def split_into_terciles (df : DF) : Terciles :=
  if df.rows.isEmpty then ⟨df, df, df⟩
  else if "Date" ∈ df.cols ∧ df.dateTyped = true then
    let dates := isort (nnDates df)
    if dates.isEmpty then posSplit df
    else
      let t1 := dates.getD (dates.length / 3 - 1) 0
      let t2 := dates.getD ((2 * dates.length) / 3 - 1) 0
      ⟨{ df with rows := df.rows.filter (fun r => dleB r.date t1) },
       { df with rows := df.rows.filter (fun r => dgtB r.date t1 && dleB r.date t2) },
       { df with rows := df.rows.filter (fun r => dgtB r.date t2) }⟩
  else posSplit df

/-! ### Indicator Engine: Bollinger Bands (`compute_bbands`, data.py 220-235) -/

/-- Arithmetic mean of a list (pandas `.mean()` over a window). -/
def listMean (l : List ℚ) : ℚ := l.sum / l.length

/-- Population variance (pandas `.std(ddof=0)` squared): denominator is the
count, not count - 1. -/
def popVar (l : List ℚ) : ℚ := ((l.map (fun x => (x - listMean l) ^ 2)).sum) / l.length

/-- Population standard deviation. -/
noncomputable def popStd (l : List ℚ) : ℝ := Real.sqrt ((popVar l : ℚ) : ℝ)

/-- The trailing window `rolling(window=n, min_periods=1)` ending at index
`i`: the elements at indices `max 0 (i+1-n) .. i`. -/
def rollingWindow (xs : List ℚ) (n i : ℕ) : List ℚ := (xs.take (i + 1)).drop (i + 1 - n)

/-- Float division whose zero-denominator case propagates as an undefined
value (pandas NaN/inf), modelled as `none`. -/
noncomputable def divNaN (a b : ℝ) : Option ℝ := if b = 0 then none else some (a / b)

structure BBCols where
  ma : List ℚ
  std : List ℝ
  upper : List ℝ
  lower : List ℝ
  percentB : List (Option ℝ)
  bandWidth : List (Option ℝ)

/-- The result of `compute_bbands`: the input frame (copied) plus the added
indicator columns, which exist exactly when a `Close` column does. -/
structure BBFrame where
  base : DF
  ind : Option BBCols

def BBFrame.allCols (f : BBFrame) : List String :=
  f.base.cols ++ (match f.ind with
    | some _ => ["MA", "Std", "Upper", "Lower", "PercentB", "BandWidth"]
    | none => [])

def BBFrame.rowCount (f : BBFrame) : ℕ := f.base.rows.length

/-- Models `df["MA"] = df["Close"].rolling(window=n, min_periods=1).mean()`
(data.py line 229), entry at index `i`. -/
def bbMA (xs : List ℚ) (n i : ℕ) : ℚ := listMean (rollingWindow xs n i)

/-- Models `df["Std"] = df["Close"].rolling(window=n, min_periods=1).std(ddof=0)`
(data.py line 230), entry at index `i`. -/
noncomputable def bbStd (xs : List ℚ) (n i : ℕ) : ℝ := popStd (rollingWindow xs n i)

/-- Models `df["Upper"] = df["MA"] + k * df["Std"]` (data.py line 231). -/
noncomputable def bbUpper (xs : List ℚ) (n : ℕ) (k : ℝ) (i : ℕ) : ℝ :=
  (bbMA xs n i : ℝ) + k * bbStd xs n i

/-- Models `df["Lower"] = df["MA"] - k * df["Std"]` (data.py line 232). -/
noncomputable def bbLower (xs : List ℚ) (n : ℕ) (k : ℝ) (i : ℕ) : ℝ :=
  (bbMA xs n i : ℝ) - k * bbStd xs n i

/-- Models `df["PercentB"] = (df["Close"] - df["Lower"]) / (df["Upper"] - df["Lower"])`
(data.py line 233). -/
noncomputable def bbPB (xs : List ℚ) (n : ℕ) (k : ℝ) (i : ℕ) : Option ℝ :=
  divNaN ((xs.getD i 0 : ℝ) - bbLower xs n k i) (bbUpper xs n k i - bbLower xs n k i)

/-- Models `df["BandWidth"] = (df["Upper"] - df["Lower"]) / df["MA"]` (data.py line 234). -/
noncomputable def bbBW (xs : List ℚ) (n : ℕ) (k : ℝ) (i : ℕ) : Option ℝ :=
  divNaN (bbUpper xs n k i - bbLower xs n k i) ((bbMA xs n i : ℝ))

/-- Embedding of `compute_bbands` (data.py lines 220-235). -/
noncomputable def compute_bbands (df : DF) (n : ℕ) (k : ℝ) : BBFrame :=
  if "Close" ∈ df.cols then
    let xs := closes df
    ⟨df, some ⟨(List.range xs.length).map (bbMA xs n),
               (List.range xs.length).map (bbStd xs n),
               (List.range xs.length).map (bbUpper xs n k),
               (List.range xs.length).map (bbLower xs n k),
               (List.range xs.length).map (bbPB xs n k),
               (List.range xs.length).map (bbBW xs n k)⟩⟩
  else ⟨df, none⟩

def BBFrame.maAt (f : BBFrame) (i : ℕ) : ℚ := (f.ind.elim [] (fun c => c.ma)).getD i 0

noncomputable def BBFrame.stdAt (f : BBFrame) (i : ℕ) : ℝ :=
  (f.ind.elim [] (fun c => c.std)).getD i 0

noncomputable def BBFrame.upperAt (f : BBFrame) (i : ℕ) : ℝ :=
  (f.ind.elim [] (fun c => c.upper)).getD i 0

noncomputable def BBFrame.lowerAt (f : BBFrame) (i : ℕ) : ℝ :=
  (f.ind.elim [] (fun c => c.lower)).getD i 0

noncomputable def BBFrame.percentBAt (f : BBFrame) (i : ℕ) : Option ℝ :=
  (f.ind.elim [] (fun c => c.percentB)).getD i none

noncomputable def BBFrame.bandWidthAt (f : BBFrame) (i : ℕ) : Option ℝ :=
  (f.ind.elim [] (fun c => c.bandWidth)).getD i none

/-! ### Indicator Engine: MACD (`compute_macd`, data.py 287-305) -/

/-- Tail of `Series.ewm(span, adjust=False).mean()`: `prev` is the previous
EMA value, each new value is `a * x + (1 - a) * prev`. -/
def ewmAux (a : ℚ) : ℚ → List ℚ → List ℚ
  | _, [] => []
  | prev, x :: xs =>
    let e := a * x + (1 - a) * prev
    e :: ewmAux a e xs

/-- Models `Series.ewm(span=span, adjust=False).mean()`: the first output equals the
first input, later outputs follow the recurrence with `a = 2 / (span + 1)`. -/
def ewm_mean (span : ℕ) (xs : List ℚ) : List ℚ :=
  match xs with
  | [] => []
  | x :: rest => x :: ewmAux (2 / ((span : ℚ) + 1)) x rest

structure MACDCols where
  macd : List ℚ
  sig : List ℚ
  hist : List ℚ
deriving DecidableEq

structure MACDFrame where
  base : DF
  ind : Option MACDCols
deriving DecidableEq

def MACDFrame.allCols (f : MACDFrame) : List String :=
  f.base.cols ++ (match f.ind with
    | some _ => ["MACD", "Signal", "Hist"]
    | none => [])

def MACDFrame.rowCount (f : MACDFrame) : ℕ := f.base.rows.length

/-- Embedding of `compute_macd` (data.py lines 287-305). -/
def compute_macd (df : DF) (fast slow signal : ℕ) : MACDFrame :=
  if "Close" ∈ df.cols then
    let ema_fast := ewm_mean fast (closes df)
    let ema_slow := ewm_mean slow (closes df)
    let macd := List.zipWith (fun a b => a - b) ema_fast ema_slow
    let signal_line := ewm_mean signal macd
    let hist := List.zipWith (fun a b => a - b) macd signal_line
    ⟨df, some ⟨macd, signal_line, hist⟩⟩
  else ⟨df, none⟩

def MACDFrame.macdAt (f : MACDFrame) (i : ℕ) : ℚ := (f.ind.elim [] (fun c => c.macd)).getD i 0

def MACDFrame.sigAt (f : MACDFrame) (i : ℕ) : ℚ := (f.ind.elim [] (fun c => c.sig)).getD i 0

def MACDFrame.histAt (f : MACDFrame) (i : ℕ) : ℚ := (f.ind.elim [] (fun c => c.hist)).getD i 0

/-! ### Spec-side definitions (stated from the specification's wording,
to be compared with the source embedding) -/

/-- Spec wording: the trailing window of size `n` ending at `i`, "using
fewer than `n` points for the first `n-1` rows (minimum period = 1)". -/
def specWindow (xs : List ℚ) (n i : ℕ) : List ℚ :=
  if i + 1 ≤ n then xs.take (i + 1) else (xs.drop (i + 1 - n)).take n

/-- Spec wording: `EMA[0] = Close[0]`,
`EMA[i] = a*Close[i] + (1-a)*EMA[i-1]`. -/
def specEMA (a : ℚ) (xs : List ℚ) : ℕ → ℚ
  | 0 => xs.getD 0 0
  | i + 1 => a * xs.getD (i + 1) 0 + (1 - a) * specEMA a xs i

/-- The same recurrence started from a given previous value `p`. -/
def emaFrom (a p : ℚ) (l : List ℚ) : ℕ → ℚ
  | 0 => a * l.getD 0 0 + (1 - a) * p
  | i + 1 => a * l.getD (i + 1) 0 + (1 - a) * emaFrom a p l i

/-! ### Lemmas connecting the source embedding to the spec-side forms -/

theorem specWindow_eq_rollingWindow (xs : List ℚ) (n i : ℕ) :
    specWindow xs n i = rollingWindow xs n i := by
  unfold specWindow rollingWindow
  split
  · next h => rw [Nat.sub_eq_zero_of_le h, List.drop_zero]
  · next h =>
    rw [List.drop_take]
    congr 1
    omega

theorem emaFrom_cons (a p y : ℚ) (l : List ℚ) (i : ℕ) :
    emaFrom a (a * y + (1 - a) * p) l i = emaFrom a p (y :: l) (i + 1) := by
  induction i with
  | zero => simp [emaFrom]
  | succ i ih => simp [emaFrom, ih]

theorem ewmAux_length (a : ℚ) (p : ℚ) (l : List ℚ) : (ewmAux a p l).length = l.length := by
  induction l generalizing p with
  | nil => rfl
  | cons x xs ih => simp [ewmAux, ih]

theorem ewmAux_getD (a : ℚ) (l : List ℚ) :
    ∀ (p : ℚ) (i : ℕ), i < l.length → (ewmAux a p l).getD i 0 = emaFrom a p l i := by
  induction l with
  | nil =>
    intro p i h
    simp at h
  | cons y l ih =>
    intro p i h
    cases i with
    | zero => simp [ewmAux, emaFrom]
    | succ i =>
      have hi : i < l.length := by simpa using h
      simp only [ewmAux, List.getD_cons_succ]
      rw [ih _ i hi, emaFrom_cons]

theorem specEMA_cons (a x : ℚ) (rest : List ℚ) (i : ℕ) :
    specEMA a (x :: rest) (i + 1) = emaFrom a x rest i := by
  induction i with
  | zero => simp [specEMA, emaFrom]
  | succ i ih =>
    have h1 : specEMA a (x :: rest) (i + 2)
        = a * (x :: rest).getD (i + 2) 0 + (1 - a) * specEMA a (x :: rest) (i + 1) := rfl
    have h2 : emaFrom a x rest (i + 1)
        = a * rest.getD (i + 1) 0 + (1 - a) * emaFrom a x rest i := rfl
    rw [h1, h2, ih, List.getD_cons_succ]

theorem ewm_mean_length (s : ℕ) (xs : List ℚ) : (ewm_mean s xs).length = xs.length := by
  cases xs with
  | nil => rfl
  | cons x rest => simp [ewm_mean, ewmAux_length]

theorem ewm_mean_getD (s : ℕ) (xs : List ℚ) (i : ℕ) (h : i < xs.length) :
    (ewm_mean s xs).getD i 0 = specEMA (2 / ((s : ℚ) + 1)) xs i := by
  cases xs with
  | nil => simp at h
  | cons x rest =>
    cases i with
    | zero => simp [ewm_mean, specEMA]
    | succ i =>
      have hi : i < rest.length := by simpa using h
      simp only [ewm_mean, List.getD_cons_succ]
      rw [ewmAux_getD _ _ _ i hi, specEMA_cons]

/-! ### Sortedness lemmas for `isort` -/

theorem mem_iinsert (a d : Int) (l : List Int) : a ∈ iinsert d l ↔ a = d ∨ a ∈ l := by
  induction l with
  | nil => simp [iinsert]
  | cons x xs ih =>
    by_cases h : d ≤ x
    · simp [iinsert, h]
    · simp [iinsert, h, ih]
      tauto

theorem pairwise_iinsert (d : Int) (l : List Int) (hl : l.Pairwise (· ≤ ·)) :
    (iinsert d l).Pairwise (· ≤ ·) := by
  induction l with
  | nil => simp [iinsert]
  | cons x xs ih =>
    rcases List.pairwise_cons.mp hl with ⟨hx, hxs⟩
    by_cases h : d ≤ x
    · rw [iinsert, if_pos h]
      refine List.pairwise_cons.mpr ⟨?_, hl⟩
      intro b hb
      rcases List.mem_cons.mp hb with hb | hb
      · rw [hb]
        exact h
      · exact le_trans h (hx b hb)
    · rw [iinsert, if_neg h]
      refine List.pairwise_cons.mpr ⟨?_, ih hxs⟩
      intro b hb
      rcases (mem_iinsert b d xs).mp hb with hb | hb
      · rw [hb]
        omega
      · exact hx b hb

theorem pairwise_isort (l : List Int) : (isort l).Pairwise (· ≤ ·) := by
  induction l with
  | nil => simp [isort]
  | cons x xs ih => exact pairwise_iinsert x (isort xs) ih

theorem length_iinsert (d : Int) (l : List Int) : (iinsert d l).length = l.length + 1 := by
  induction l with
  | nil => rfl
  | cons x xs ih =>
    by_cases h : d ≤ x
    · simp [iinsert, h]
    · simp [iinsert, h, ih]

theorem length_isort (l : List Int) : (isort l).length = l.length := by
  induction l with
  | nil => rfl
  | cons x xs ih => simp [isort, length_iinsert, ih]

theorem isort_eq_nil_iff (l : List Int) : isort l = [] ↔ l = [] := by
  constructor
  · intro h
    have := length_isort l
    rw [h] at this
    exact List.length_eq_zero.mp this.symm
  · intro h
    rw [h]
    rfl

theorem pairwise_getD_mono {l : List Int} (hl : l.Pairwise (· ≤ ·)) {i j : ℕ}
    (hij : i ≤ j) (hj : j < l.length) : l.getD i 0 ≤ l.getD j 0 := by
  rcases eq_or_lt_of_le hij with rfl | hlt
  · exact le_refl _
  · have hi : i < l.length := lt_trans hlt hj
    rw [List.getD_eq_getElem _ _ hi, List.getD_eq_getElem _ _ hj]
    exact List.pairwise_iff_getElem.mp hl i j hi hj hlt

/-! ### Bucket trichotomy: on a list whose dates are nondecreasing (NaT
maximal), the three date buckets concatenate back to the non-null rows. -/

theorem filter_tricho (t1 t2 : Int) (h12 : t1 ≤ t2) :
    ∀ l : List Row, l.Pairwise (fun a b => dleB2 a.date b.date = true) →
      l.filter (fun r => dleB r.date t1)
        ++ l.filter (fun r => dgtB r.date t1 && dleB r.date t2)
        ++ l.filter (fun r => dgtB r.date t2)
      = l.filter (fun r => r.date.isSome) := by
  intro l
  induction l with
  | nil =>
    intro _
    simp
  | cons r rest ih =>
    intro hl
    rcases List.pairwise_cons.mp hl with ⟨hr, hrest⟩
    have ihr := ih hrest
    cases hd : r.date with
    | none =>
      have fE : (r :: rest).filter (fun x => dleB x.date t1)
          = rest.filter (fun x => dleB x.date t1) := by
        simp [List.filter_cons, hd, dleB]
      have fM : (r :: rest).filter (fun x => dgtB x.date t1 && dleB x.date t2)
          = rest.filter (fun x => dgtB x.date t1 && dleB x.date t2) := by
        simp [List.filter_cons, hd, dgtB]
      have fR : (r :: rest).filter (fun x => dgtB x.date t2)
          = rest.filter (fun x => dgtB x.date t2) := by
        simp [List.filter_cons, hd, dgtB]
      have fS : (r :: rest).filter (fun x => x.date.isSome)
          = rest.filter (fun x => x.date.isSome) := by
        simp [List.filter_cons, hd]
      rw [fE, fM, fR, fS]
      exact ihr
    | some d =>
      have hrge : ∀ b ∈ rest, ∀ e : Int, b.date = some e → d ≤ e := by
        intro b hb e hbe
        have hle := hr b hb
        rw [hd, hbe] at hle
        simpa [dleB2] using hle
      have fS : (r :: rest).filter (fun x => x.date.isSome)
          = r :: rest.filter (fun x => x.date.isSome) := by
        simp [List.filter_cons, hd]
      by_cases hdt1 : d ≤ t1
      · have fE : (r :: rest).filter (fun x => dleB x.date t1)
            = r :: rest.filter (fun x => dleB x.date t1) := by
          simp [List.filter_cons, hd, dleB, hdt1]
        have fM : (r :: rest).filter (fun x => dgtB x.date t1 && dleB x.date t2)
            = rest.filter (fun x => dgtB x.date t1 && dleB x.date t2) := by
          have : dgtB (some d) t1 = false := by
            simp [dgtB]
            omega
          simp [List.filter_cons, hd, this]
        have fR : (r :: rest).filter (fun x => dgtB x.date t2)
            = rest.filter (fun x => dgtB x.date t2) := by
          have : dgtB (some d) t2 = false := by
            simp [dgtB]
            omega
          simp [List.filter_cons, hd, this]
        rw [fE, fM, fR, fS]
        simp only [List.cons_append]
        rw [ihr]
      · by_cases hdt2 : d ≤ t2
        · have fE : (r :: rest).filter (fun x => dleB x.date t1)
              = rest.filter (fun x => dleB x.date t1) := by
            have : dleB (some d) t1 = false := by
              simp [dleB]
              omega
            simp [List.filter_cons, hd, this]
          have fM : (r :: rest).filter (fun x => dgtB x.date t1 && dleB x.date t2)
              = r :: rest.filter (fun x => dgtB x.date t1 && dleB x.date t2) := by
            have h2 : (dgtB (some d) t1 && dleB (some d) t2) = true := by
              simp [dgtB, dleB]
              omega
            simp [List.filter_cons, hd, h2]
          have fR : (r :: rest).filter (fun x => dgtB x.date t2)
              = rest.filter (fun x => dgtB x.date t2) := by
            have : dgtB (some d) t2 = false := by
              simp [dgtB]
              omega
            simp [List.filter_cons, hd, this]
          have hEnil : rest.filter (fun x => dleB x.date t1) = [] := by
            rw [List.filter_eq_nil_iff]
            intro b hb
            cases hbe : b.date with
            | none => simp [dleB, hbe]
            | some e =>
              have := hrge b hb e hbe
              simp [dleB, hbe]
              omega
          have ihr2 : rest.filter (fun x => dgtB x.date t1 && dleB x.date t2)
              ++ rest.filter (fun x => dgtB x.date t2)
              = rest.filter (fun x => x.date.isSome) := by
            rw [hEnil, List.nil_append] at ihr
            exact ihr
          rw [fE, fM, fR, fS, hEnil, List.nil_append, List.cons_append, ihr2]
        · have fE : (r :: rest).filter (fun x => dleB x.date t1)
              = rest.filter (fun x => dleB x.date t1) := by
            have : dleB (some d) t1 = false := by
              simp [dleB]
              omega
            simp [List.filter_cons, hd, this]
          have fM : (r :: rest).filter (fun x => dgtB x.date t1 && dleB x.date t2)
              = rest.filter (fun x => dgtB x.date t1 && dleB x.date t2) := by
            have h2 : (dgtB (some d) t1 && dleB (some d) t2) = false := by
              simp [dgtB, dleB]
              omega
            simp [List.filter_cons, hd, h2]
          have fR : (r :: rest).filter (fun x => dgtB x.date t2)
              = r :: rest.filter (fun x => dgtB x.date t2) := by
            have : dgtB (some d) t2 = true := by
              simp [dgtB]
              omega
            simp [List.filter_cons, hd, this]
          have hEnil : rest.filter (fun x => dleB x.date t1) = [] := by
            rw [List.filter_eq_nil_iff]
            intro b hb
            cases hbe : b.date with
            | none => simp [dleB, hbe]
            | some e =>
              have := hrge b hb e hbe
              simp [dleB, hbe]
              omega
          have hMnil : rest.filter (fun x => dgtB x.date t1 && dleB x.date t2) = [] := by
            rw [List.filter_eq_nil_iff]
            intro b hb
            cases hbe : b.date with
            | none => simp [dgtB, hbe]
            | some e =>
              have := hrge b hb e hbe
              simp [dgtB, dleB, hbe]
              omega
          have ihr2 : rest.filter (fun x => dgtB x.date t2)
              = rest.filter (fun x => x.date.isSome) := by
            rw [hEnil, hMnil, List.nil_append, List.nil_append] at ihr
            exact ihr
          rw [fE, fM, fR, fS, hEnil, hMnil, List.nil_append, List.nil_append, ihr2]

/-! ### Evaluation lemmas for the indicator accessors -/

theorem compute_bbands_pos (df : DF) (n : ℕ) (k : ℝ) (hc : "Close" ∈ df.cols) :
    compute_bbands df n k
      = ⟨df, some ⟨(List.range (closes df).length).map (bbMA (closes df) n),
                   (List.range (closes df).length).map (bbStd (closes df) n),
                   (List.range (closes df).length).map (bbUpper (closes df) n k),
                   (List.range (closes df).length).map (bbLower (closes df) n k),
                   (List.range (closes df).length).map (bbPB (closes df) n k),
                   (List.range (closes df).length).map (bbBW (closes df) n k)⟩⟩ := by
  unfold compute_bbands
  rw [if_pos hc]

theorem maAt_eval (df : DF) (n : ℕ) (k : ℝ) (hc : "Close" ∈ df.cols) {i : ℕ}
    (hi : i < (closes df).length) :
    BBFrame.maAt (compute_bbands df n k) i = bbMA (closes df) n i := by
  rw [compute_bbands_pos df n k hc]
  unfold BBFrame.maAt
  simp only [Option.elim]
  exact getD_map_range _ _ hi

theorem stdAt_eval (df : DF) (n : ℕ) (k : ℝ) (hc : "Close" ∈ df.cols) {i : ℕ}
    (hi : i < (closes df).length) :
    BBFrame.stdAt (compute_bbands df n k) i = bbStd (closes df) n i := by
  rw [compute_bbands_pos df n k hc]
  unfold BBFrame.stdAt
  simp only [Option.elim]
  exact getD_map_range _ _ hi

theorem upperAt_eval (df : DF) (n : ℕ) (k : ℝ) (hc : "Close" ∈ df.cols) {i : ℕ}
    (hi : i < (closes df).length) :
    BBFrame.upperAt (compute_bbands df n k) i = bbUpper (closes df) n k i := by
  rw [compute_bbands_pos df n k hc]
  unfold BBFrame.upperAt
  simp only [Option.elim]
  exact getD_map_range _ _ hi

theorem lowerAt_eval (df : DF) (n : ℕ) (k : ℝ) (hc : "Close" ∈ df.cols) {i : ℕ}
    (hi : i < (closes df).length) :
    BBFrame.lowerAt (compute_bbands df n k) i = bbLower (closes df) n k i := by
  rw [compute_bbands_pos df n k hc]
  unfold BBFrame.lowerAt
  simp only [Option.elim]
  exact getD_map_range _ _ hi

theorem percentBAt_eval (df : DF) (n : ℕ) (k : ℝ) (hc : "Close" ∈ df.cols) {i : ℕ}
    (hi : i < (closes df).length) :
    BBFrame.percentBAt (compute_bbands df n k) i = bbPB (closes df) n k i := by
  rw [compute_bbands_pos df n k hc]
  unfold BBFrame.percentBAt
  simp only [Option.elim]
  exact getD_map_range _ _ hi

theorem bandWidthAt_eval (df : DF) (n : ℕ) (k : ℝ) (hc : "Close" ∈ df.cols) {i : ℕ}
    (hi : i < (closes df).length) :
    BBFrame.bandWidthAt (compute_bbands df n k) i = bbBW (closes df) n k i := by
  rw [compute_bbands_pos df n k hc]
  unfold BBFrame.bandWidthAt
  simp only [Option.elim]
  exact getD_map_range _ _ hi

/-- The source's MACD line: `ema_fast - ema_slow` (data.py lines 296-298). -/
def srcMacdList (xs : List ℚ) (fast slow : ℕ) : List ℚ :=
  List.zipWith (fun a b => a - b) (ewm_mean fast xs) (ewm_mean slow xs)

theorem compute_macd_pos (df : DF) (fast slow signal : ℕ) (hc : "Close" ∈ df.cols) :
    compute_macd df fast slow signal
      = ⟨df, some ⟨srcMacdList (closes df) fast slow,
                   ewm_mean signal (srcMacdList (closes df) fast slow),
                   List.zipWith (fun a b => a - b) (srcMacdList (closes df) fast slow)
                     (ewm_mean signal (srcMacdList (closes df) fast slow))⟩⟩ := by
  unfold compute_macd srcMacdList
  rw [if_pos hc]

theorem srcMacdList_length (xs : List ℚ) (fast slow : ℕ) :
    (srcMacdList xs fast slow).length = xs.length := by
  simp [srcMacdList, ewm_mean_length]

/-! ### Branch lemmas for `split_into_terciles` -/

/-- The two cut dates of the date-based split (data.py lines 168-169):
`t1 = dates.iloc[max(0, len(dates)//3 - 1)]` (truncated subtraction on `ℕ`
is exactly `max(0, ...)`), and likewise `t2` at `max(0, 2*len(dates)//3 - 1)`. -/
def dateCutT1 (df : DF) : Int :=
  let dates := isort (nnDates df)
  dates.getD (dates.length / 3 - 1) 0

def dateCutT2 (df : DF) : Int :=
  let dates := isort (nnDates df)
  dates.getD ((2 * dates.length) / 3 - 1) 0

theorem dateCutT1_le_T2 (df : DF) (hnn : nnDates df ≠ []) : dateCutT1 df ≤ dateCutT2 df := by
  unfold dateCutT1 dateCutT2
  have hlen : (isort (nnDates df)).length = (nnDates df).length := length_isort _
  have hpos : 0 < (nnDates df).length := List.length_pos.mpr hnn
  apply pairwise_getD_mono (pairwise_isort _)
  · omega
  · omega

theorem split_date_branch (df : DF) (hd : "Date" ∈ df.cols) (ht : df.dateTyped = true)
    (hnn : nnDates df ≠ []) :
    split_into_terciles df =
      ⟨{ df with rows := df.rows.filter (fun r => dleB r.date (dateCutT1 df)) },
       { df with rows := df.rows.filter (fun r => dgtB r.date (dateCutT1 df)
           && dleB r.date (dateCutT2 df)) },
       { df with rows := df.rows.filter (fun r => dgtB r.date (dateCutT2 df)) }⟩ := by
  have hrows : df.rows ≠ [] := by
    intro h
    apply hnn
    simp [nnDates, h]
  have hre : ¬(df.rows.isEmpty = true) := by
    simpa using hrows
  have hde : ¬((isort (nnDates df)).isEmpty = true) := by
    intro h
    apply hnn
    exact (isort_eq_nil_iff _).mp (by simpa using h)
  unfold split_into_terciles
  rw [if_neg hre, if_pos ⟨hd, ht⟩]
  rw [if_neg hde]
  rfl

theorem split_eq_posSplit (df : DF)
    (h : ¬("Date" ∈ df.cols ∧ df.dateTyped = true ∧ nnDates df ≠ [])) :
    split_into_terciles df = posSplit df := by
  by_cases he : df.rows.isEmpty = true
  · have hrows : df.rows = [] := by simpa using he
    obtain ⟨c, ty, rws⟩ := df
    simp only at hrows
    subst hrows
    simp [split_into_terciles, posSplit]
  · unfold split_into_terciles
    rw [if_neg he]
    by_cases hc : "Date" ∈ df.cols ∧ df.dateTyped = true
    · have hnn : nnDates df = [] := by
        by_contra hnn
        exact h ⟨hc.1, hc.2, hnn⟩
      rw [if_pos hc]
      have hde : (isort (nnDates df)).isEmpty = true := by
        rw [hnn]
        rfl
      rw [if_pos hde]
    · rw [if_neg hc]

/-! ### Constant-series lemmas -/

theorem listMean_replicate (s : ℕ) (c : ℚ) (hs : s ≠ 0) :
    listMean (List.replicate s c) = c := by
  unfold listMean
  rw [List.sum_replicate, List.length_replicate, nsmul_eq_mul]
  exact mul_div_cancel_left₀ c (Nat.cast_ne_zero.mpr hs)

theorem popVar_replicate (s : ℕ) (c : ℚ) (hs : s ≠ 0) :
    popVar (List.replicate s c) = 0 := by
  unfold popVar
  rw [listMean_replicate s c hs, List.map_replicate]
  simp

theorem rollingWindow_replicate (m : ℕ) (c : ℚ) (n i : ℕ) :
    rollingWindow (List.replicate m c) n i = List.replicate (min (i + 1) m - (i + 1 - n)) c := by
  unfold rollingWindow
  rw [List.take_replicate, List.drop_replicate]

theorem dleB_iff (o : Option Int) (t : Int) : dleB o t = true ↔ ∃ d, o = some d ∧ d ≤ t := by
  cases o <;> simp [dleB]

theorem dgtB_iff (o : Option Int) (t : Int) : dgtB o t = true ↔ ∃ d, o = some d ∧ t < d := by
  cases o <;> simp [dgtB]

theorem midPred_iff (o : Option Int) (t1 t2 : Int) :
    (dgtB o t1 && dleB o t2) = true ↔ ∃ d, o = some d ∧ t1 < d ∧ d ≤ t2 := by
  cases o <;> simp [dgtB, dleB]

/-! ### Claims -/

/-- Spec-side statement of the date-cut rule (§4.2 of the spec): `early` is
exactly the rows with date ≤ t1, `mid` exactly those with t1 < date ≤ t2,
`recent` exactly those with date > t2, and null-date rows fall into no
bucket. -/
def dateSplitSpec (df : DF) (s : Terciles) : Prop :=
  (∀ r : Row, r ∈ s.early.rows ↔ r ∈ df.rows ∧ ∃ d, r.date = some d ∧ d ≤ dateCutT1 df) ∧
  (∀ r : Row, r ∈ s.mid.rows ↔ r ∈ df.rows ∧
    ∃ d, r.date = some d ∧ dateCutT1 df < d ∧ d ≤ dateCutT2 df) ∧
  (∀ r : Row, r ∈ s.recent.rows ↔ r ∈ df.rows ∧ ∃ d, r.date = some d ∧ dateCutT2 df < d) ∧
  (∀ r ∈ df.rows, r.date = none →
    r ∉ s.early.rows ∧ r ∉ s.mid.rows ∧ r ∉ s.recent.rows)

/-- C1: for every dataset with a parsed, typed `Date` column containing at
least one non-null value, `split_into_terciles` produces the three segments
by the date-cut rule with `t1 = D[max(0, |D|/3 - 1)]` and
`t2 = D[max(0, 2|D|/3 - 1)]` over the sorted non-null dates `D`; `early`
is exactly the rows with date ≤ t1, `mid` exactly those with
t1 < date ≤ t2, `recent` exactly those with date > t2, and every row with
a null date is excluded from all three segments. -/
theorem C1_split_by_date_cuts (df : DF) (hd : "Date" ∈ df.cols) (ht : df.dateTyped = true)
    (hnn : nnDates df ≠ []) : dateSplitSpec df (split_into_terciles df) := by
  rw [split_date_branch df hd ht hnn]
  refine ⟨?_, ?_, ?_, ?_⟩
  · intro r
    simp only [List.mem_filter]
    rw [dleB_iff]
  · intro r
    simp only [List.mem_filter]
    rw [midPred_iff]
  · intro r
    simp only [List.mem_filter]
    rw [dgtB_iff]
  · intro r _ hnone
    refine ⟨?_, ?_, ?_⟩ <;>
      · intro hmem
        have := (List.mem_filter.mp hmem).2
        simp [hnone, dleB, dgtB] at this

def dfW1 : DF := ⟨["Date", "Close"], true, [⟨some 1, 10, 0⟩, ⟨some 2, 11, 1⟩, ⟨some 3, 12, 2⟩]⟩

theorem C1_split_by_date_cuts_witness :
    ("Date" ∈ dfW1.cols ∧ dfW1.dateTyped = true ∧ nnDates dfW1 ≠ []) ∧
      dateSplitSpec dfW1 (split_into_terciles dfW1) :=
  ⟨⟨by decide, by decide, by decide⟩,
   C1_split_by_date_cuts dfW1 (by decide) (by decide) (by decide)⟩

/-- Spec-side statement of the positional split (§4.2): three contiguous
ranges of sizes `n/3`, `2n/3 - n/3` and `n - 2n/3` preserving the original
order (and hence three empty segments on an empty dataset). -/
def posSplitSpec (df : DF) (s : Terciles) : Prop :=
  s.early = { df with rows := df.rows.take (df.rows.length / 3) } ∧
  s.mid = { df with rows :=
    (df.rows.drop (df.rows.length / 3)).take ((2 * df.rows.length) / 3 - df.rows.length / 3) } ∧
  s.recent = { df with rows := df.rows.drop ((2 * df.rows.length) / 3) } ∧
  s.early.rows.length = df.rows.length / 3 ∧
  s.mid.rows.length = (2 * df.rows.length) / 3 - df.rows.length / 3 ∧
  s.recent.rows.length = df.rows.length - (2 * df.rows.length) / 3 ∧
  s.early.rows ++ s.mid.rows ++ s.recent.rows = df.rows

/-- C8: for every dataset without a usable (parsed, typed,
at-least-one-non-null) `Date` column, `split_into_terciles` partitions by
row position into three contiguous ranges of sizes `n/3`, `2n/3 - n/3`
and `n - 2n/3`, preserving the original row order; for the empty dataset
all three segments are empty (the function is total, so it never fails). -/
theorem C8_positional_split (df : DF)
    (h : ¬("Date" ∈ df.cols ∧ df.dateTyped = true ∧ nnDates df ≠ [])) :
    posSplitSpec df (split_into_terciles df) := by
  rw [split_eq_posSplit df h]
  unfold posSplitSpec posSplit
  refine ⟨rfl, rfl, rfl, ?_, ?_, ?_, ?_⟩
  · simp only [List.length_take]
    omega
  · simp only [List.length_take, List.length_drop]
    omega
  · simp only [List.length_drop]
  · simp only []
    conv_rhs => rw [← List.take_append_drop (df.rows.length / 3) df.rows]
    rw [List.append_assoc]
    congr 1
    conv_rhs => rw [← List.take_append_drop
      ((2 * df.rows.length) / 3 - df.rows.length / 3) (df.rows.drop (df.rows.length / 3))]
    congr 1
    rw [List.drop_drop]
    congr 1
    omega

def dfW8 : DF := ⟨["Close"], false,
  [⟨none, 1, 0⟩, ⟨none, 2, 1⟩, ⟨none, 3, 2⟩, ⟨none, 4, 3⟩]⟩

theorem C8_positional_split_witness :
    ¬("Date" ∈ dfW8.cols ∧ dfW8.dateTyped = true ∧ nnDates dfW8 ≠ []) ∧
      posSplitSpec dfW8 (split_into_terciles dfW8) :=
  ⟨by decide, C8_positional_split dfW8 (by decide)⟩

/-- Spec-side statement of the round-trip/ordering property (§8): the
concatenation `early ++ mid ++ recent` is exactly the subsequence of rows
with a non-null date in original order, and dates never decrease across
the early/mid and mid/recent boundaries (the pointwise form of
`max(early.Date) ≤ min(mid.Date)` and `max(mid.Date) ≤ min(recent.Date)`). -/
def tercileOrderSpec (df : DF) (s : Terciles) : Prop :=
  s.early.rows ++ s.mid.rows ++ s.recent.rows = df.rows.filter (fun r => r.date.isSome) ∧
  (∀ a ∈ s.early.rows, ∀ b ∈ s.mid.rows,
    ∀ x y : Int, a.date = some x → b.date = some y → x ≤ y) ∧
  (∀ a ∈ s.mid.rows, ∀ b ∈ s.recent.rows,
    ∀ x y : Int, a.date = some x → b.date = some y → x ≤ y)

/-- C4: for every non-empty dataset with a valid `Date` column (valid per
the data-model invariant of §3: parsed, typed, at least one non-null date,
and sorted ascending with nulls last as ingestion leaves it),
concatenating `early ++ mid ++ recent` reproduces exactly the rows with a
non-null date, each exactly once, in the original row order, and the
segment date boundaries satisfy `max(early.Date) ≤ min(mid.Date)` and
`max(mid.Date) ≤ min(recent.Date)`. -/
theorem C4_concat_roundtrip (df : DF) (hd : "Date" ∈ df.cols) (ht : df.dateTyped = true)
    (hnn : nnDates df ≠ [])
    (hsorted : df.rows.Pairwise (fun a b => dleB2 a.date b.date = true)) :
    tercileOrderSpec df (split_into_terciles df) := by
  rw [split_date_branch df hd ht hnn]
  have h12 := dateCutT1_le_T2 df hnn
  refine ⟨?_, ?_, ?_⟩
  · exact filter_tricho (dateCutT1 df) (dateCutT2 df) h12 df.rows hsorted
  · intro a ha b hb x y hax hby
    have hA := (List.mem_filter.mp ha).2
    have hB := (List.mem_filter.mp hb).2
    rw [hax] at hA
    rw [hby] at hB
    simp only [dleB] at hA
    simp only [dgtB, dleB, Bool.and_eq_true] at hB
    have h1 : x ≤ dateCutT1 df := by simpa using hA
    have h2 : dateCutT1 df < y := by simpa using hB.1
    omega
  · intro a ha b hb x y hax hby
    have hA := (List.mem_filter.mp ha).2
    have hB := (List.mem_filter.mp hb).2
    rw [hax] at hA
    rw [hby] at hB
    simp only [dgtB, dleB, Bool.and_eq_true] at hA
    simp only [dgtB] at hB
    have h1 : x ≤ dateCutT2 df := by simpa using hA.2
    have h2 : dateCutT2 df < y := by simpa using hB
    omega

def dfW4 : DF := ⟨["Date", "Close"], true,
  [⟨some 1, 10, 0⟩, ⟨some 2, 11, 1⟩, ⟨some 3, 12, 2⟩, ⟨none, 13, 3⟩]⟩

theorem C4_concat_roundtrip_witness :
    ("Date" ∈ dfW4.cols ∧ dfW4.dateTyped = true ∧ nnDates dfW4 ≠ [] ∧
      dfW4.rows.Pairwise (fun a b => dleB2 a.date b.date = true)) ∧
      tercileOrderSpec dfW4 (split_into_terciles dfW4) :=
  ⟨⟨by decide, by decide, by decide, by decide⟩,
   C4_concat_roundtrip dfW4 (by decide) (by decide) (by decide) (by decide)⟩

/-- C5: for every segment lacking a `Close` column, `compute_bbands` and
`compute_macd` return the segment unchanged — same columns, same row
count, no indicator columns added, and no error (both functions are
total). -/
theorem C5_no_close_passthrough (df : DF) (n : ℕ) (k : ℝ) (fast slow signal : ℕ)
    (h : "Close" ∉ df.cols) :
    compute_bbands df n k = ⟨df, none⟩ ∧
    (compute_bbands df n k).allCols = df.cols ∧
    (compute_bbands df n k).rowCount = df.rows.length ∧
    compute_macd df fast slow signal = ⟨df, none⟩ ∧
    (compute_macd df fast slow signal).allCols = df.cols ∧
    (compute_macd df fast slow signal).rowCount = df.rows.length := by
  have h1 : compute_bbands df n k = ⟨df, none⟩ := by
    unfold compute_bbands
    rw [if_neg h]
  have h2 : compute_macd df fast slow signal = ⟨df, none⟩ := by
    unfold compute_macd
    rw [if_neg h]
  refine ⟨h1, ?_, ?_, h2, ?_, ?_⟩ <;>
    simp [h1, h2, BBFrame.allCols, MACDFrame.allCols, BBFrame.rowCount, MACDFrame.rowCount]

def dfW5 : DF := ⟨["Date", "Volume"], true, [⟨some 1, 0, 0⟩, ⟨some 2, 0, 1⟩]⟩

theorem C5_no_close_passthrough_witness :
    ("Close" ∉ dfW5.cols) ∧
      (compute_bbands dfW5 20 2 = ⟨dfW5, none⟩ ∧
       (compute_bbands dfW5 20 2).allCols = dfW5.cols ∧
       (compute_bbands dfW5 20 2).rowCount = dfW5.rows.length ∧
       compute_macd dfW5 12 26 9 = ⟨dfW5, none⟩ ∧
       (compute_macd dfW5 12 26 9).allCols = dfW5.cols ∧
       (compute_macd dfW5 12 26 9).rowCount = dfW5.rows.length) :=
  ⟨by decide, C5_no_close_passthrough dfW5 20 2 12 26 9 (by decide)⟩

/-- C10: for every segment with a `Close` column, the output of
`compute_bbands` carries a `Std` column (holding the rolling population
standard deviation over the spec's trailing windows) in addition to `MA`,
`Upper`, `Lower`, `PercentB` and `BandWidth`. -/
theorem C10_std_column_present (df : DF) (n : ℕ) (k : ℝ) (hc : "Close" ∈ df.cols) :
    "Std" ∈ (compute_bbands df n k).allCols ∧
    "MA" ∈ (compute_bbands df n k).allCols ∧
    "Upper" ∈ (compute_bbands df n k).allCols ∧
    "Lower" ∈ (compute_bbands df n k).allCols ∧
    "PercentB" ∈ (compute_bbands df n k).allCols ∧
    "BandWidth" ∈ (compute_bbands df n k).allCols ∧
    ∀ i < (closes df).length,
      BBFrame.stdAt (compute_bbands df n k) i
        = Real.sqrt ((popVar (specWindow (closes df) n i) : ℚ) : ℝ) := by
  have hall : (compute_bbands df n k).allCols
      = df.cols ++ ["MA", "Std", "Upper", "Lower", "PercentB", "BandWidth"] := by
    rw [compute_bbands_pos df n k hc]
    simp [BBFrame.allCols]
  refine ⟨by rw [hall]; simp, by rw [hall]; simp, by rw [hall]; simp, by rw [hall]; simp,
    by rw [hall]; simp, by rw [hall]; simp, ?_⟩
  intro i hi
  rw [stdAt_eval df n k hc hi]
  unfold bbStd popStd
  rw [specWindow_eq_rollingWindow]

def dfW10 : DF := ⟨["Date", "Close"], true, [⟨some 1, 3, 0⟩, ⟨some 2, 5, 1⟩]⟩

theorem C10_std_column_present_witness :
    ("Close" ∈ dfW10.cols) ∧
      ("Std" ∈ (compute_bbands dfW10 20 2).allCols ∧
       "MA" ∈ (compute_bbands dfW10 20 2).allCols ∧
       "Upper" ∈ (compute_bbands dfW10 20 2).allCols ∧
       "Lower" ∈ (compute_bbands dfW10 20 2).allCols ∧
       "PercentB" ∈ (compute_bbands dfW10 20 2).allCols ∧
       "BandWidth" ∈ (compute_bbands dfW10 20 2).allCols ∧
       ∀ i < (closes dfW10).length,
         BBFrame.stdAt (compute_bbands dfW10 20 2) i
           = Real.sqrt ((popVar (specWindow (closes dfW10) 20 i) : ℚ) : ℝ)) :=
  ⟨by decide, C10_std_column_present dfW10 20 2 (by decide)⟩

/-- Spec-side statement of the Bollinger formulas (§4.3): `MA[i]` is the
mean of `Close` over the spec's trailing window, `Std[i]` the population
standard deviation over the same window, and
`Upper/Lower = MA ± k·Std`. -/
def bbandsSpecHolds (df : DF) (n : ℕ) (k : ℝ) : Prop :=
  ∀ i < (closes df).length,
    BBFrame.maAt (compute_bbands df n k) i = listMean (specWindow (closes df) n i) ∧
    BBFrame.stdAt (compute_bbands df n k) i
      = Real.sqrt ((popVar (specWindow (closes df) n i) : ℚ) : ℝ) ∧
    BBFrame.upperAt (compute_bbands df n k) i
      = (BBFrame.maAt (compute_bbands df n k) i : ℝ)
        + k * BBFrame.stdAt (compute_bbands df n k) i ∧
    BBFrame.lowerAt (compute_bbands df n k) i
      = (BBFrame.maAt (compute_bbands df n k) i : ℝ)
        - k * BBFrame.stdAt (compute_bbands df n k) i

/-- C2: for every segment with a `Close` column and every window `n ≥ 1`
and multiplier `k`, `compute_bbands` adds columns satisfying: `MA[i]` is
the arithmetic mean of `Close` over the trailing window of size `n` ending
at `i` (with fewer than `n` points for the first `n-1` rows, minimum
period 1), `Std[i]` is the population standard deviation (denominator =
count) over the same window, `Upper[i] = MA[i] + k·Std[i]` and
`Lower[i] = MA[i] - k·Std[i]`. -/
theorem C2_bollinger_formulas (df : DF) (n : ℕ) (k : ℝ) (hn : 1 ≤ n)
    (hc : "Close" ∈ df.cols) : bbandsSpecHolds df n k := by
  intro i hi
  rw [maAt_eval df n k hc hi, stdAt_eval df n k hc hi, upperAt_eval df n k hc hi,
    lowerAt_eval df n k hc hi]
  refine ⟨?_, ?_, rfl, rfl⟩
  · unfold bbMA
    rw [specWindow_eq_rollingWindow]
  · unfold bbStd popStd
    rw [specWindow_eq_rollingWindow]

def dfW2 : DF := ⟨["Close"], false, [⟨none, 0, 0⟩, ⟨none, 2, 1⟩, ⟨none, 7, 2⟩]⟩

theorem C2_bollinger_formulas_witness :
    (1 ≤ 2 ∧ "Close" ∈ dfW2.cols) ∧ bbandsSpecHolds dfW2 2 (3 : ℝ) :=
  ⟨⟨by decide, by decide⟩, C2_bollinger_formulas dfW2 2 3 (by decide) (by decide)⟩

/-- Spec wording: `MACD[i] = EMA(Close, fast)[i] - EMA(Close, slow)[i]`
with `a = 2/(span+1)`. -/
def macdSpecAt (xs : List ℚ) (fast slow : ℕ) (i : ℕ) : ℚ :=
  specEMA (2 / ((fast : ℚ) + 1)) xs i - specEMA (2 / ((slow : ℚ) + 1)) xs i

/-- The spec's MACD series as a list, for feeding the signal-line EMA. -/
def specMacdList (xs : List ℚ) (fast slow : ℕ) : List ℚ :=
  (List.range xs.length).map (macdSpecAt xs fast slow)

theorem ewm_mean_getElem (s : ℕ) (xs : List ℚ) {i : ℕ} (h : i < (ewm_mean s xs).length) :
    (ewm_mean s xs)[i] = specEMA (2 / ((s : ℚ) + 1)) xs i := by
  have hx : i < xs.length := by rwa [ewm_mean_length] at h
  rw [← List.getD_eq_getElem _ 0 h]
  exact ewm_mean_getD s xs i hx

theorem srcMacdList_eq_spec (xs : List ℚ) (fast slow : ℕ) :
    srcMacdList xs fast slow = specMacdList xs fast slow := by
  have hlen1 : (srcMacdList xs fast slow).length = xs.length := srcMacdList_length xs fast slow
  have hlen2 : (specMacdList xs fast slow).length = xs.length := by simp [specMacdList]
  apply List.ext_getElem (by rw [hlen1, hlen2])
  intro i h1 h2
  have hx : i < xs.length := by rwa [hlen1] at h1
  unfold srcMacdList specMacdList
  rw [List.getElem_zipWith, List.getElem_map, List.getElem_range]
  unfold macdSpecAt
  rw [ewm_mean_getElem, ewm_mean_getElem]

/-- Spec-side statement of the MACD contract (§4.3): each EMA follows the
adjust=false recurrence `EMA[0] = x[0]`, `EMA[i] = a·x[i] + (1-a)·EMA[i-1]`
with `a = 2/(span+1)`; `MACD = EMA(Close, fast) - EMA(Close, slow)`;
`Signal = EMA(MACD, signal)` by the same recurrence on the MACD series;
`Hist = MACD - Signal`. -/
def macdSpecHolds (df : DF) (fast slow signal : ℕ) : Prop :=
  ∀ i < (closes df).length,
    MACDFrame.macdAt (compute_macd df fast slow signal) i
      = macdSpecAt (closes df) fast slow i ∧
    MACDFrame.sigAt (compute_macd df fast slow signal) i
      = specEMA (2 / ((signal : ℚ) + 1)) (specMacdList (closes df) fast slow) i ∧
    MACDFrame.histAt (compute_macd df fast slow signal) i
      = MACDFrame.macdAt (compute_macd df fast slow signal) i
        - MACDFrame.sigAt (compute_macd df fast slow signal) i

/-- C3: for every segment with a `Close` column and parameters
`fast`, `slow`, `signal`, `compute_macd` computes each EMA by the
adjust=false recurrence, `MACD` as the difference of the fast and slow
EMAs of `Close`, `Signal` as the EMA of the MACD series, and
`Hist = MACD - Signal`. -/
theorem C3_macd_formulas (df : DF) (fast slow signal : ℕ) (hc : "Close" ∈ df.cols) :
    macdSpecHolds df fast slow signal := by
  intro i hi
  rw [compute_macd_pos df fast slow signal hc]
  have hiM : i < (srcMacdList (closes df) fast slow).length := by
    rw [srcMacdList_length]
    exact hi
  have hiS : i < (ewm_mean signal (srcMacdList (closes df) fast slow)).length := by
    rw [ewm_mean_length]
    exact hiM
  refine ⟨?_, ?_, ?_⟩
  · show (srcMacdList (closes df) fast slow).getD i 0 = macdSpecAt (closes df) fast slow i
    rw [srcMacdList_eq_spec]
    unfold specMacdList
    exact getD_map_range _ _ hi
  · show (ewm_mean signal (srcMacdList (closes df) fast slow)).getD i 0
      = specEMA (2 / ((signal : ℚ) + 1)) (specMacdList (closes df) fast slow) i
    rw [ewm_mean_getD signal _ i hiM, srcMacdList_eq_spec]
  · show (List.zipWith (fun a b => a - b) (srcMacdList (closes df) fast slow)
        (ewm_mean signal (srcMacdList (closes df) fast slow))).getD i 0
      = (srcMacdList (closes df) fast slow).getD i 0
        - (ewm_mean signal (srcMacdList (closes df) fast slow)).getD i 0
    have hiZ : i < (List.zipWith (fun a b => a - b) (srcMacdList (closes df) fast slow)
        (ewm_mean signal (srcMacdList (closes df) fast slow))).length := by
      rw [List.length_zipWith]
      omega
    rw [List.getD_eq_getElem _ _ hiZ, List.getElem_zipWith,
      ← List.getD_eq_getElem _ 0 hiM, ← List.getD_eq_getElem _ 0 hiS]

def dfW3 : DF := ⟨["Date", "Close"], true, [⟨some 1, 4, 0⟩, ⟨some 2, 6, 1⟩]⟩

theorem C3_macd_formulas_witness :
    ("Close" ∈ dfW3.cols) ∧ macdSpecHolds dfW3 12 26 9 :=
  ⟨by decide, C3_macd_formulas dfW3 12 26 9 (by decide)⟩

/-- Amended spec of the constant-`Close` behaviour: `Std = 0`,
`Upper = Lower = MA = c`, `PercentB` is undefined for every row, but
`BandWidth` is `0` (not undefined) whenever the constant `c` is nonzero —
only for `c = 0` does its division by zero make it undefined. -/
def constBBSpec (df : DF) (n : ℕ) (k : ℝ) (c : ℚ) : Prop :=
  ∀ i < (closes df).length,
    BBFrame.maAt (compute_bbands df n k) i = c ∧
    BBFrame.stdAt (compute_bbands df n k) i = 0 ∧
    BBFrame.upperAt (compute_bbands df n k) i = (c : ℝ) ∧
    BBFrame.lowerAt (compute_bbands df n k) i = (c : ℝ) ∧
    BBFrame.percentBAt (compute_bbands df n k) i = none ∧
    BBFrame.bandWidthAt (compute_bbands df n k) i = (if c = 0 then none else some 0)

/-- C6 (amended): for a non-empty constant `Close` series with value `c`
and window `n ≥ 1`, `compute_bbands` yields `Std = 0`,
`Upper = Lower = MA = c`, `PercentB = NaN` for every row; `BandWidth`
however is `0` — not NaN — whenever `c ≠ 0` (the original claim that
`BandWidth` is undefined for every row is refuted by
`C6_bandwidth_defined_counterexample`). -/
theorem C6_constant_close (df : DF) (n : ℕ) (k : ℝ) (c : ℚ) (hc : "Close" ∈ df.cols)
    (hne : df.rows ≠ []) (hn : 1 ≤ n)
    (hrep : closes df = List.replicate (closes df).length c) :
    constBBSpec df n k c := by
  intro i hi
  have hwin : rollingWindow (closes df) n i
      = List.replicate (min (i + 1) (closes df).length - (i + 1 - n)) c := by
    conv_lhs => rw [hrep]
    rw [rollingWindow_replicate]
  have hsz : min (i + 1) (closes df).length - (i + 1 - n) ≠ 0 := by omega
  have hma : bbMA (closes df) n i = c := by
    unfold bbMA
    rw [hwin, listMean_replicate _ _ hsz]
  have hstd : bbStd (closes df) n i = 0 := by
    unfold bbStd popStd
    rw [hwin, popVar_replicate _ _ hsz]
    simp
  have hupper : bbUpper (closes df) n k i = (c : ℝ) := by
    unfold bbUpper
    rw [hma, hstd]
    ring
  have hlower : bbLower (closes df) n k i = (c : ℝ) := by
    unfold bbLower
    rw [hma, hstd]
    ring
  refine ⟨?_, ?_, ?_, ?_, ?_, ?_⟩
  · rw [maAt_eval df n k hc hi]
    exact hma
  · rw [stdAt_eval df n k hc hi]
    exact hstd
  · rw [upperAt_eval df n k hc hi]
    exact hupper
  · rw [lowerAt_eval df n k hc hi]
    exact hlower
  · rw [percentBAt_eval df n k hc hi]
    unfold bbPB divNaN
    rw [hupper, hlower]
    rw [if_pos (sub_self _)]
  · rw [bandWidthAt_eval df n k hc hi]
    unfold bbBW divNaN
    rw [hupper, hlower, hma]
    rcases eq_or_ne c 0 with hc0 | hc0
    · rw [if_pos (by rw [hc0]; norm_num), if_pos hc0]
    · rw [if_neg (by exact_mod_cast hc0), if_neg hc0]
      rw [sub_self, zero_div]

def dfC6 : DF := ⟨["Close"], false, [⟨none, 1, 0⟩]⟩

/-- C6 counterexample: for the non-empty constant `Close` series `[1]`
(window 20, multiplier 2), `BandWidth` at row 0 is the defined value `0`,
not an undefined/NaN value as the claim asserts for every row. -/
theorem C6_bandwidth_defined_counterexample :
    ("Close" ∈ dfC6.cols ∧ closes dfC6 = List.replicate 1 1 ∧ dfC6.rows ≠ []) ∧
      BBFrame.bandWidthAt (compute_bbands dfC6 20 2) 0 = some 0 := by
  refine ⟨⟨by decide, by decide, by decide⟩, ?_⟩
  have hc : "Close" ∈ dfC6.cols := by decide
  have hi : (0 : ℕ) < (closes dfC6).length := by decide
  rw [bandWidthAt_eval dfC6 20 2 hc hi]
  have hwin : rollingWindow (closes dfC6) 20 0 = [1] := by decide
  have hma : bbMA (closes dfC6) 20 0 = 1 := by
    unfold bbMA
    rw [hwin]
    norm_num [listMean]
  have hstd : bbStd (closes dfC6) 20 0 = 0 := by
    unfold bbStd popStd
    rw [hwin]
    have hv : popVar [1] = 0 := by norm_num [popVar, listMean]
    rw [hv]
    simp
  unfold bbBW bbUpper bbLower divNaN
  rw [hma, hstd]
  norm_num

def dfW6 : DF := ⟨["Close"], false, [⟨none, 5, 0⟩, ⟨none, 5, 1⟩]⟩

theorem C6_constant_close_witness :
    ("Close" ∈ dfW6.cols ∧ dfW6.rows ≠ [] ∧ 1 ≤ 3 ∧
      closes dfW6 = List.replicate (closes dfW6).length 5) ∧
      constBBSpec dfW6 3 2 5 :=
  ⟨⟨by decide, by decide, by decide, by decide⟩,
   C6_constant_close dfW6 3 2 5 (by decide) (by decide) (by decide) (by decide)⟩

/-- C7: `read_tables_from_file` fails with the not-found error when the
source file is absent; when the prefix does not look like HTML and
delimited-text parsing fails entirely, it falls back to attempting the
HTML path on the full content — returning those tables if that succeeds —
and if that also fails it surfaces the original delimited-text parse
error (not the HTML error). -/
theorem C7_read_error_routing {ε η : Type} (csvP : String → Except ε ATable)
    (htmlP : String → Except η (List ATable)) (dp : String → Option Int) :
    read_tables_from_file none csvP htmlP dp = .error .notFound ∧
    (∀ (content : String) (ce : ε) (he : η), sniffHTML content = false →
      csvP content = .error ce → htmlP content = .error he →
      read_tables_from_file (some content) csvP htmlP dp = .error (.csvFail ce)) ∧
    (∀ (content : String) (ce : ε) (ts : List ATable), sniffHTML content = false →
      csvP content = .error ce → htmlP content = .ok ts →
      read_tables_from_file (some content) csvP htmlP dp = .ok ts) := by
  refine ⟨rfl, ?_, ?_⟩
  · intro content ce he hs hcsv hhtml
    simp only [read_tables_from_file]
    rw [if_neg (by simp [hs]), hcsv, hhtml]
  · intro content ce ts hs hcsv hhtml
    simp only [read_tables_from_file]
    rw [if_neg (by simp [hs]), hcsv, hhtml]

def csvFailP : String → Except ℕ ATable := fun _ => Except.error 7

def htmlFailP : String → Except ℕ (List ATable) := fun _ => Except.error 9

def noDateP : String → Option Int := fun _ => none

theorem C7_read_error_routing_witness :
    (sniffHTML "a,b" = false ∧ csvFailP "a,b" = Except.error 7 ∧
      htmlFailP "a,b" = Except.error 9) ∧
      read_tables_from_file none csvFailP htmlFailP noDateP = .error .notFound ∧
      read_tables_from_file (some "a,b") csvFailP htmlFailP noDateP
        = .error (.csvFail 7) :=
  ⟨⟨by decide, rfl, rfl⟩,
   (C7_read_error_routing csvFailP htmlFailP noDateP).1,
   (C7_read_error_routing csvFailP htmlFailP noDateP).2.1 "a,b" 7 9 (by decide) rfl rfl⟩

/-- Amended spec of the post-ingestion sort invariant: it is established by
the delimited-text path only — there, if a `Date` column is present after
normalization, every row's date is the (null-on-failure) parse of its raw
`Date` cell and the rows are sorted ascending by date with nulls placed
last (deterministically).  The HTML detection path returns the parsed
tables unchanged. -/
def csvIngestSpec (dp : String → Option Int) (t : ATable) : Prop :=
  "Date" ∈ (dropOpenInt t).cols →
    (normalize dp t).rows.Pairwise (fun a b => dleB2 a.date b.date = true) ∧
    ∀ r ∈ (normalize dp t).rows, r.date = dp ((r.cells.lookup "Date").getD "")

/-- C9 (amended): a dataset ingested by the delimited-text path of
`read_tables_from_file` is the normalization of the CSV parse, and — when
it has a `Date` column — it is sorted ascending by that column with
unparsable date entries turned into the null marker and placed
deterministically (last).  The HTML detection path establishes no such
invariant (see `C9_html_path_counterexample`). -/
theorem C9_csv_sorted (ε η : Type) (content : String) (csvP : String → Except ε ATable)
    (htmlP : String → Except η (List ATable)) (dp : String → Option Int) (t : ATable)
    (hs : sniffHTML content = false) (hok : csvP content = .ok t) :
    read_tables_from_file (some content) csvP htmlP dp = .ok [normalize dp t] ∧
    csvIngestSpec dp t := by
  constructor
  · simp only [read_tables_from_file]
    rw [if_neg (by simp [hs]), hok]
  · intro hdate
    unfold normalize
    rw [if_pos hdate]
    constructor
    · exact pairwise_dsort _
    · intro r hr
      rw [mem_dsort] at hr
      unfold parseDates at hr
      simp only [List.mem_map] at hr
      obtain ⟨r0, _, rfl⟩ := hr
      rfl

def rowLate : ARow := ⟨[("Date", "b")], some 1⟩

def rowEarly : ARow := ⟨[("Date", "a")], some 0⟩

def tBad : ATable := ⟨["Date", "Close"], [rowLate, rowEarly]⟩

/-- C9 counterexample: with content `"<table>"` the HTML detection path is
taken and the parsed table is returned unchanged, so a successfully
ingested dataset with a `Date` column is not sorted ascending by it
(its dates are `[1, 0]`), refuting the claim for the HTML path. -/
theorem C9_html_path_counterexample :
    read_tables_from_file (some "<table>") (fun _ => (Except.error 0 : Except ℕ ATable))
        (fun _ => (Except.ok [tBad] : Except ℕ (List ATable))) noDateP
      = Except.ok [tBad]
    ∧ "Date" ∈ tBad.cols
    ∧ ¬ tBad.rows.Pairwise (fun a b => dleB2 a.date b.date = true) := by
  refine ⟨?_, by decide, ?_⟩
  · rfl
  · intro h
    rcases List.pairwise_cons.mp h with ⟨h1, _⟩
    have := h1 rowEarly (by simp [tBad])
    simp [rowLate, rowEarly, dleB2] at this

def tGood : ATable := ⟨["Date", "OpenInt"],
  [⟨[("Date", "x"), ("OpenInt", "0")], none⟩, ⟨[("Date", "2001-01-01"), ("OpenInt", "0")], none⟩]⟩

def dpW9 : String → Option Int := fun s => if s = "2001-01-01" then some 11323 else none

theorem C9_csv_sorted_witness :
    (sniffHTML "Date,OpenInt" = false ∧
      (fun _ => (Except.ok tGood : Except ℕ ATable)) "Date,OpenInt" = Except.ok tGood) ∧
      read_tables_from_file (some "Date,OpenInt")
          (fun _ => (Except.ok tGood : Except ℕ ATable))
          (fun _ => (Except.error 9 : Except ℕ (List ATable))) dpW9
        = .ok [normalize dpW9 tGood] ∧
      csvIngestSpec dpW9 tGood :=
  ⟨⟨by decide, rfl⟩,
   (C9_csv_sorted ℕ ℕ "Date,OpenInt" (fun _ => Except.ok tGood)
     (fun _ => Except.error 9) dpW9 tGood (by decide) rfl).1,
   (C9_csv_sorted ℕ ℕ "Date,OpenInt" (fun _ => Except.ok tGood)
     (fun _ => Except.error 9) dpW9 tGood (by decide) rfl).2⟩

end ADBE
